import Mathlib

/-!
Verification of the k6 test-run orchestration action.

A shallow embedding of the orchestration engine of the `run-k6-action`
repository (`src/index.ts`, `src/k6helper.ts`, `src/k6OutputParser.ts`,
`src/utils.ts`).  JavaScript strings are modelled as Lean `String` /
`List Char`; the JavaScript string primitives used by the source
(`split`, `includes`, `indexOf`, `slice`, `replace`, `Set`) are given
explicit character-level definitions.  Child processes are modelled by
explicit exit-code assignments and completion orders; the Node.js
single-threaded event loop delivers `exit` callbacks in completion order.
-/

set_option autoImplicit false

namespace RunK6

/-! ## JavaScript string primitives on `List Char` -/

/-- Models `String.prototype.split` with a one-character separator:
`"a.b".split('.') = ["a","b"]`, `"".split('.') = [""]`. -/
def splitOnChar (sep : Char) : List Char → List (List Char)
  | [] => [[]]
  | c :: cs =>
    let r := splitOnChar sep cs
    if c = sep then [] :: r
    else
      match r with
      | [] => [[c]]
      | g :: gs => (c :: g) :: gs

/-- Does the second list start with the first one (`String.prototype.startsWith`)? -/
def startsWithChars : List Char → List Char → Bool
  | [], _ => true
  | _ :: _, [] => false
  | p :: ps, c :: cs => p = c && startsWithChars ps cs

/-- Models `String.prototype.indexOf` for a substring: index of the first occurrence. -/
def indexOfSubAux (pat : List Char) : List Char → Nat → Option Nat
  | [], i => if pat = [] then some i else none
  | c :: cs, i =>
    if startsWithChars pat (c :: cs) then some i else indexOfSubAux pat cs (i + 1)

def indexOfSub (hay pat : List Char) : Option Nat :=
  indexOfSubAux pat hay 0

/-- Models `String.prototype.includes` for a substring. -/
def containsSub (hay pat : List Char) : Bool :=
  (indexOfSub hay pat).isSome

/-- JavaScript whitespace class `\s` (restricted to the ASCII whitespace
characters that can occur in k6 output). -/
def isSpaceJS (c : Char) : Bool :=
  c = ' ' ∨ c = '\t' ∨ c = '\n' ∨ c = '\r'

/-- The value of a most-significant-first decimal digit string
(how `localeCompare` with numeric collation reads a digit run). -/
def digitsVal (cs : List Char) : Nat :=
  cs.foldl (fun a c => a * 10 + (c.toNat - 48)) 0

/-- Canonical decimal digits of a natural number, most significant first
(the shape of every numeric segment of a version string). -/
def natDigitsGo : Nat → Nat → List Char
  | 0, _ => []
  | fuel + 1, n =>
    if n < 10 then [Char.ofNat (48 + n)]
    else natDigitsGo fuel (n / 10) ++ [Char.ofNat (48 + n % 10)]

def natDigits (n : Nat) : List Char :=
  natDigitsGo (n + 1) n

/-! ## `k6helper.ts`: version comparison (`isVersionAtLeast`) -/

/-- One step of natural-sort string comparison: maximal digit runs are
compared by numeric value, other characters by code point.  This models
`String.prototype.localeCompare(·, undefined, {numeric: true})` on the
ASCII strings the source compares.  `fuel` bounds the recursion and is
immaterial as long as it is at least the length of the first string. -/
def natOrdAux : Nat → List Char → List Char → Ordering
  | _, [], [] => .eq
  | _, [], _ :: _ => .lt
  | _, _ :: _, [] => .gt
  | 0, _ :: _, _ :: _ => .eq
  | fuel + 1, x :: xs, y :: ys =>
    if x.isDigit && y.isDigit then
      let dx := (x :: xs).takeWhile Char.isDigit
      let dy := (y :: ys).takeWhile Char.isDigit
      match compare (digitsVal dx) (digitsVal dy) with
      | .eq => natOrdAux fuel ((x :: xs).dropWhile Char.isDigit)
          ((y :: ys).dropWhile Char.isDigit)
      | o => o
    else if x = y then natOrdAux fuel xs ys
    else compare x y

def natOrd (xs ys : List Char) : Ordering :=
  natOrdAux xs.length xs ys

/-- Function `isVersionAtLeast` from `k6helper.ts`: errors when either version string
is empty or the dot-separated segment counts differ; otherwise the result of
the numeric `localeCompare` being `>= 0`. -/
def isVersionAtLeast (version1 version2 : String) : Except String Bool :=
  if version1.data = [] ∨ version2.data = [] then
    .error "Both version strings must be provided"
  else if (splitOnChar '.' version1.data).length ≠ (splitOnChar '.' version2.data).length then
    .error "Both version strings must have the same number of segments"
  else
    .ok (natOrd version1.data version2.data ≠ Ordering.lt)

/-- The version threshold at which k6 gained the `k6 cloud run` subcommand. -/
def k6CloudRunCommandVersion : String := "0.54.0"

/-- Lexicographic comparison of numeric version segments, earlier segments
deciding first. -/
def lexCompareSegs : List Nat → List Nat → Ordering
  | [], [] => .eq
  | [], _ :: _ => .lt
  | _ :: _, [] => .gt
  | m :: ms, n :: ns =>
    match compare m n with
    | .eq => lexCompareSegs ms ns
    | o => o

/-- Modelled from the spec: "numeric, dot-separated comparison" — the first
version is at least the second when the segment lists compare
lexicographically as greater or equal. -/
def specNumericVersionGE (a b : List Nat) : Bool :=
  lexCompareSegs a b ≠ Ordering.lt

/-- The canonical version string with the given numeric segments
(decimal digits joined by dots), e.g. `renderSegs [0, 54, 0] = "0.54.0"`. -/
def renderSegs : List Nat → List Char
  | [] => []
  | [n] => natDigits n
  | n :: rest => natDigits n ++ '.' :: renderSegs rest

/-! ## `k6helper.ts`: command builder (`generateK6RunCommand`) -/

/-- Models `flags ? flags.split(' ') : []` from the source. -/
def splitFlags (flags : String) : List String :=
  if flags = "" then [] else (splitOnChar ' ' flags.data).map (fun l => String.mk l)

/-- Models `args.join(' ')`. -/
def joinSpace : List String → String
  | [] => ""
  | [x] => x
  | x :: xs => x ++ " " ++ joinSpace xs

/-- The argument list built by `generateK6RunCommand` before the command verb
is prepended: `['--address=', ...flags]`, then the cloud argument when one is
pushed, then the script path (always pushed last). -/
def k6RunArgs (flags : String) (extra : List String) (path : String) : List String :=
  "--address=" :: splitFlags flags ++ extra ++ [path]

/-- Function `generateK6RunCommand` from `k6helper.ts` (version with the
`k6 cloud run` support).  `getInstalledK6Version()` is an effect (it shells
out to `k6 version`); its result is passed in as `k6Version`.  The
`isVersionAtLeast` exception propagates to the caller, modelled by `Except`. -/
def generateK6RunCommand (k6Version : String) (path flags : String)
    (isCloud cloudRunLocally : Bool) : Except String String :=
  if isCloud then
    match isVersionAtLeast k6Version k6CloudRunCommandVersion with
    | .error e => .error e
    | .ok true =>
      let extra := if cloudRunLocally then ["--local-execution"] else []
      .ok ("k6 cloud run" ++ " " ++ joinSpace (k6RunArgs flags extra path))
    | .ok false =>
      if cloudRunLocally then
        .ok ("k6 run" ++ " " ++ joinSpace (k6RunArgs flags ["--out=cloud"] path))
      else
        .ok ("k6 cloud" ++ " " ++ joinSpace (k6RunArgs flags [] path))
  else
    .ok ("k6 run" ++ " " ++ joinSpace (k6RunArgs flags [] path))

/-! ## `k6helper.ts`: `extractTestRunId` and the `testRunIds` output -/

/-- Function `extractTestRunId` from `k6helper.ts`: the regex `/\/runs\/(\d+)$/`
anchored at the end of the URL.  The capture is the maximal digit run at the
end of the string, and the six characters before it must be `/runs/`. -/
def extractTestRunId (testRunUrl : String) : Option String :=
  let rev := testRunUrl.data.reverse
  let ds := rev.takeWhile Char.isDigit
  if ds = [] then none
  else if (rev.drop ds.length).take 6 = ['/', 's', 'n', 'u', 'r', '/'] then
    some (String.mk ds.reverse)
  else none

/-- The `testRunIds` loop in `index.ts`: every map entry whose URL yields a
test-run id contributes one output entry; entries whose URL yields none are
skipped. -/
def buildTestRunIds (entries : List (String × String)) : List (String × String) :=
  entries.filterMap (fun e => (extractTestRunId e.2).map (fun id => (e.1, id)))

/-! ## `k6helper.ts`: `validateTestPaths`

Each candidate path gets one `k6 inspect --execution-requirements`
subprocess.  The `exit` callbacks fire in subprocess completion order, and
each callback with exit code `0` pushes its path onto the result array, so
the result is ordered by completion.  `completion` lists the indices of the
candidates in the order their subprocesses exited; `exitCode i` is the exit
code of candidate `i`'s subprocess (`none` models termination by signal,
which reaches the callback as `code = null`). -/

def validPick (testPaths : List String) (exitCode : Nat → Option Int) (i : Nat) :
    Option String :=
  match testPaths.get? i, exitCode i with
  | some p, some 0 => some p
  | _, _ => none

def validateTestPaths (testPaths : List String) (_flags : List String)
    (completion : List Nat) (exitCode : Nat → Option Int) : Except String (List String) :=
  if testPaths = [] then .error "No test files found"
  else .ok (completion.filterMap (validPick testPaths exitCode))

/-! ## `index.ts`: the result-reference map and its proxy trap -/

/-- A JavaScript object used as a string-keyed map: an association list in
insertion order with unique keys.  Assigning an existing key overwrites in
place; assigning a fresh key appends. -/
def mapSet (m : List (String × String)) (k v : String) : List (String × String) :=
  if m.any (fun e => e.1 = k) then
    m.map (fun e => if e.1 = k then (k, v) else e)
  else m ++ [(k, v)]

/-- The `set` trap of `TEST_RESULT_URLS_MAP` in `index.ts`: performs the
write, then reports whether the map's key count has reached
`TOTAL_TEST_RUNS` — that check guards the externally observable
aggregation-complete action (logging / PR reporting of the finalized map). -/
def proxySet (total : Nat) (m : List (String × String)) (k v : String) :
    List (String × String) × Bool :=
  let m' := mapSet m k v
  (m', m'.length = total)

/-- A run's sequence of map assignments as issued by `parseK6Output`: each
assignment is attempted only while `Object.keys(map).length < totalTestRuns`
(the guard in `k6OutputParser.ts`).  Returns the final map and how many times
the aggregation-complete action fired. -/
def guardedStep (total : Nat) (acc : List (String × String) × Nat)
    (op : String × String) : List (String × String) × Nat :=
  if acc.1.length < total then
    let r := proxySet total acc.1 op.1 op.2
    (r.1, acc.2 + (if r.2 then 1 else 0))
  else acc

def guardedSets (total : Nat) (ops : List (String × String)) :
    List (String × String) × Nat :=
  ops.foldl (guardedStep total) ([], 0)

/-! ## `index.ts`: the `run` orchestration

`run()` is modelled over the decisions that determine which scripts get a
run subprocess and the final process exit code.  Cloud result reporting
(`setOutput`, PR comment) does not influence either and is omitted.  The
per-script run exit code is `runExit`; in sequential fail-fast mode the
first failing script stops the loop (`process.exit(1)` inside the callback),
so later commands are never spawned. -/

structure RunResult where
  spawned : List String
  exitCode : Nat
  deriving DecidableEq, Repr

/-- Sequential fail-fast spawning: commands run one at a time and a non-zero
exit terminates the orchestrator before the next spawn. -/
def spawnUntilFailure : List String → (String → Int) → List String
  | [], _ => []
  | p :: ps, f => if f p = 0 then p :: spawnUntilFailure ps f else [p]

/-- The `run` flow of `index.ts`.  The key line is
`const commands = testPaths.map((testPath) => generateK6RunCommand(...))`:
run commands are generated from `testPaths`, and each command is spawned. -/
def runModel (testPaths : List String) (completion : List Nat)
    (exitCode : Nat → Option Int) (runExit : String → Int)
    (parallel failFast onlyVerifyScripts : Bool) : RunResult :=
  match validateTestPaths testPaths [] completion exitCode with
  | .error _ => ⟨[], 1⟩
  | .ok verifiedTestPaths =>
    if verifiedTestPaths = [] then ⟨[], 1⟩
    else if onlyVerifyScripts then ⟨[], 0⟩
    else
      let commandPaths := testPaths
      if parallel then
        ⟨commandPaths, if commandPaths.all (fun p => runExit p = 0) then 0 else 1⟩
      else if failFast then
        let spawned := spawnUntilFailure commandPaths runExit
        ⟨spawned, if spawned.all (fun p => runExit p = 0) then 0 else 1⟩
      else
        ⟨commandPaths, if commandPaths.all (fun p => runExit p = 0) then 0 else 1⟩

/-! ## `k6OutputParser.ts`: the progress-line regexes

The three `TEST_RUN_PROGRESS_MSG_REGEXES` are translated into a small
backtracking regex engine with JavaScript semantics.  Crucially, all three
source regexes carry the `g` flag, so `RegExp.prototype.test` is *stateful*:
it searches from `lastIndex`, sets `lastIndex` to the end of a found match,
and resets `lastIndex` to `0` on failure.  That per-regex `lastIndex` lives
in module scope in the source and therefore persists across lines and across
`parseK6Output` calls. -/

/-- Character classes used by the progress regexes: `\d`, `\s` and `.`
(the dot does not match line terminators). -/
inductive CC where
  | digit
  | space
  | dot
  deriving DecidableEq, Repr

def ccMatch : CC → Char → Bool
  | .digit, c => c.isDigit
  | .space, c => isSpaceJS c
  | .dot, c => c != '\n' && c != '\r'

/-- Regex abstract syntax sufficient for the three progress patterns. -/
inductive RE where
  | lit (cs : List Char)
  | star (cc : CC)
  | plus (cc : CC)
  | opt (r : RE)
  | seq (a b : RE)
  | alt (a b : RE)

/-- Suffixes remaining after a greedy class star, in backtracking priority
order (maximal consumption first). -/
def starSuffixes (cc : CC) : List Char → List (List Char)
  | [] => [[]]
  | c :: cs =>
    if ccMatch cc c then starSuffixes cc cs ++ [c :: cs] else [c :: cs]

/-- All suffixes remaining after a match of `r` at the front of `s`, in the
priority order of a JavaScript backtracking engine (greedy quantifiers,
left alternative first).  The head of the list is the suffix of the match
the engine commits to. -/
def matchSuffixes : RE → List Char → List (List Char)
  | .lit cs, s => if startsWithChars cs s then [s.drop cs.length] else []
  | .star cc, s => starSuffixes cc s
  | .plus cc, s =>
    match s with
    | [] => []
    | c :: cs => if ccMatch cc c then starSuffixes cc cs else []
  | .opt r, s => matchSuffixes r s ++ [s]
  | .seq a b, s => (matchSuffixes a s).flatMap (matchSuffixes b)
  | .alt a b, s => matchSuffixes a s ++ matchSuffixes b s

/-- Number of characters consumed by the committed match of `r` at the front
of `s`, if any. -/
def matchConsumed (r : RE) (s : List Char) : Option Nat :=
  match matchSuffixes r s with
  | [] => none
  | suf :: _ => some (s.length - suf.length)

/-- Leftmost match search from position `i`: the end position of the first
match found.  `fuel` counts the candidate start positions left to try. -/
def searchEndAux (r : RE) (s : List Char) : Nat → Nat → Option Nat
  | _, 0 => none
  | i, fuel + 1 =>
    match matchConsumed r (s.drop i) with
    | some n => some (i + n)
    | none => searchEndAux r s (i + 1) fuel

/-- Models `RegExp.prototype.test` on a regex with the `g` flag: search from
`lastIndex`; on success return `true` with the new `lastIndex` (the match
end), on failure return `false` with `lastIndex` reset to `0`. -/
def testG (r : RE) (s : List Char) (lastIndex : Nat) : Bool × Nat :=
  match searchEndAux r s lastIndex (s.length + 1 - lastIndex) with
  | some e => (true, e)
  | none => (false, 0)

def seqList (rs : List RE) : RE :=
  rs.foldr RE.seq (.lit [])

/-- Pattern `/running \(.*\), \d+\/\d+ VUs, \d+ complete and \d+ interrupted iterations/g` -/
def runningIterationRE : RE :=
  seqList [.lit "running (".data, .star .dot, .lit "), ".data,
    .plus .digit, .lit "/".data, .plus .digit, .lit " VUs, ".data,
    .plus .digit, .lit " complete and ".data,
    .plus .digit, .lit " interrupted iterations".data]

/-- Pattern `/\[\s*(\d+)%\s*\]\s*\d+(\/\d+)? VUs/g` -/
def executionProgressRE : RE :=
  seqList [.lit "[".data, .star .space, .plus .digit, .lit "%".data,
    .star .space, .lit "]".data, .star .space, .plus .digit,
    .opt (.seq (.lit "/".data) (.plus .digit)), .lit " VUs".data]

/-- Pattern `/Init|Run\s+\[\s+\d+%\s+\]/g` -/
def cloudRunExecutionRE : RE :=
  .alt (.lit "Init".data)
    (seqList [.lit "Run".data, .plus .space, .lit "[".data, .plus .space,
      .plus .digit, .lit "%".data, .plus .space, .lit "]".data])

/-- The module-level `lastIndex` state of the three global progress regexes. -/
structure ProgressRegexState where
  runningIteration : Nat
  executionProgress : Nat
  cloudRunExecution : Nat
  deriving DecidableEq, Repr

/-- The state of the regexes when the module is first loaded. -/
def freshRegexState : ProgressRegexState := ⟨0, 0, 0⟩

/-- Models `TEST_RUN_PROGRESS_MSG_REGEXES.some((regex) => regex.test(line))`:
short-circuiting disjunction over the three stateful tests. -/
def progressTest (st : ProgressRegexState) (line : List Char) :
    Bool × ProgressRegexState :=
  let r1 := testG runningIterationRE line st.runningIteration
  if r1.1 then (true, { st with runningIteration := r1.2 })
  else
    let r2 := testG executionProgressRE line st.executionProgress
    if r2.1 then (true, { st with runningIteration := r1.2, executionProgress := r2.2 })
    else
      let r3 := testG cloudRunExecutionRE line st.cloudRunExecution
      (r3.1, ⟨r1.2, r2.2, r3.2⟩)

/-- Models `lines.filter((line) => !TEST_RUN_PROGRESS_MSG_REGEXES.some(...))`,
threading the regex state through the lines in order. -/
def filterProgressLines : ProgressRegexState → List (List Char) →
    List (List Char) × ProgressRegexState
  | st, [] => ([], st)
  | st, l :: ls =>
    let r := progressTest st l
    let rest := filterProgressLines r.2 ls
    (if r.1 then rest.1 else l :: rest.1, rest.2)

/-! ## `k6OutputParser.ts`: metadata extraction (`extractTestRunUrl`) -/

/-- One line against `/^\s*<label>\s*(.+)$/m`: leading whitespace, the
literal label, then the greedy capture.  When everything after the label is
whitespace, backtracking leaves the final whitespace character to `(.+)`. -/
def matchLabelLine (label : List Char) (line : List Char) : Option (List Char) :=
  let rest := line.dropWhile isSpaceJS
  if startsWithChars label rest then
    let rest2 := rest.drop label.length
    let t := rest2.dropWhile isSpaceJS
    if t ≠ [] then some t
    else if rest2 ≠ [] then some (rest2.drop (rest2.length - 1))
    else none
  else none

/-- The capture of the first line matching the labelled pattern (leftmost
match of the multiline regex). -/
def firstLabelMatch (label : List Char) : List (List Char) → Option (List Char)
  | [] => none
  | l :: ls =>
    match matchLabelLine label l with
    | some c => some c
    | none => firstLabelMatch label ls

/-- The index (from the front) of the last `')'` of `body`, if any. -/
def lastCloseParen (body : List Char) : Option Nat :=
  match body.reverse.findIdx? (fun c => c = ')') with
  | some j => some (body.length - 1 - j)
  | none => none

/-- Pattern `/cloud\s*\((.+)\)/` searched left to right inside the captured output
value: after `cloud`, optional whitespace, `(`, a greedy non-empty capture,
and a closing `)` (the last one, by greediness). -/
def cloudParen : List Char → Option (List Char)
  | [] => none
  | c :: cs =>
    (if startsWithChars "cloud".data (c :: cs) then
      let afterSp := ((c :: cs).drop 5).dropWhile isSpaceJS
      match afterSp with
      | '(' :: body =>
        match lastCloseParen body with
        | some k => if 1 ≤ k then some (body.take k) else none
        | none => none
      | _ => none
    else none).orElse (fun _ => cloudParen cs)

/-- Function `extractTestRunUrl` from `k6OutputParser.ts`: extract the `script:` and
`output:` captures; when both are present, record
`map[scriptPath] = outputCloudUrl || output` and report success. -/
def extractTestRunUrl (data : List Char) (m : List (String × String)) :
    List (String × String) × Bool :=
  let lines := splitOnChar '\n' data
  match firstLabelMatch "script:".data lines, firstLabelMatch "output:".data lines with
  | some sp, some out =>
    let url := match cloudParen out with
      | some u => u
      | none => out
    (mapSet m (String.mk sp) (String.mk url), true)
  | _, _ => (m, false)

/-! ## `k6OutputParser.ts`: the ASCII-art banner heuristic -/

/-- Models `data.replace(/%0A/g, "\n")`. -/
def replacePercent0A : List Char → List Char
  | '%' :: '0' :: 'A' :: rest => '\n' :: replacePercent0A rest
  | c :: rest => c :: replacePercent0A rest
  | [] => []

/-- The twelve characters the k6 startup banner is drawn with. -/
def K6_ASCII_ART_CHARS : List Char :=
  ['|', ' ', '\n', '/', '‾', '(', ')', '_', '.', 'i', 'o', '\\']

/-- The banner-normalised prefix: `%0A` artifacts replaced by newlines, then
truncated just past the first `.io` marker (`data.slice(0, indexOf + 3)`). -/
def truncatedBanner (data : List Char) : List Char :=
  let d := replacePercent0A data
  match indexOfSub d ".io".data with
  | some i => d.take (i + 3)
  | none => d.take 2

/-- Function `checkIfK6ASCIIArt` from `k6OutputParser.ts`: the chunk must contain
`.io`, and the *set* of distinct characters of the truncated chunk must have
exactly the size of `K6_ASCII_ART_CHARS` with every member drawn from it —
i.e. it must equal the banner character set, a subset does not suffice. -/
def checkIfK6ASCIIArt (data : List Char) : Bool :=
  if !containsSub data ".io".data then false
  else
    let dataChars := (truncatedBanner data).dedup
    if dataChars.length ≠ K6_ASCII_ART_CHARS.length then false
    else dataChars.all (fun c => K6_ASCII_ART_CHARS.contains c)

/-! ## `k6OutputParser.ts`: `parseK6Output` -/

/-- Result of one `parseK6Output` call: the bytes written to the visible
log, the updated result map, and the updated module-level regex state. -/
structure ParseOutcome where
  written : List Char
  map : Option (List (String × String))
  regex : ProgressRegexState
  deriving DecidableEq, Repr

/-- Function `parseK6Output` from `k6OutputParser.ts`.  While the map is present and
below `totalTestRuns`, metadata extraction and the banner check run, and
with debug off a hit suppresses the chunk.  Debug on forwards the chunk
verbatim.  Otherwise the chunk is split into lines, stateful progress-regex
filtering drops matching lines, and if filtering removed lines and left only
emptiness, nothing is forwarded. -/
def parseK6Output (data : List Char) (testRunUrlsMap : Option (List (String × String)))
    (totalTestRuns : Nat) (debug : Bool) (st : ProgressRegexState) : ParseOutcome :=
  let lines := splitOnChar '\n' data
  let extraction :=
    match testRunUrlsMap with
    | some m =>
      if m.length < totalTestRuns then
        let r := extractTestRunUrl data m
        let art := checkIfK6ASCIIArt data
        (some r.1, (r.2 || art) && !debug)
      else (some m, false)
    | none => (none, false)
  if extraction.2 then ⟨[], extraction.1, st⟩
  else if debug then ⟨data, extraction.1, st⟩
  else
    let fr := filterProgressLines st lines
    if fr.1.length < lines.length ∧ fr.1.flatten = [] then ⟨[], extraction.1, fr.2⟩
    else ⟨List.intercalate ['\n'] fr.1, extraction.1, fr.2⟩

/-! ## Shared lemmas -/

theorem joinSpace_append_singleton (l : List String) (x : String) (h : l ≠ []) :
    joinSpace (l ++ [x]) = joinSpace l ++ " " ++ x := by
  induction l with
  | nil => exact absurd rfl h
  | cons a t ih =>
    cases t with
    | nil => simp [joinSpace]
    | cons b t' =>
      have h2 := ih (by simp)
      calc joinSpace (a :: b :: t' ++ [x])
          = a ++ " " ++ joinSpace (b :: t' ++ [x]) := rfl
        _ = a ++ " " ++ (joinSpace (b :: t') ++ " " ++ x) := by rw [h2]
        _ = joinSpace (a :: b :: t') ++ " " ++ x := by
            simp [joinSpace, String.append_assoc]

theorem takeWhile_append_all {α : Type} (p : α → Bool) (l r : List α)
    (hl : ∀ x ∈ l, p x = true) (hr : ∀ c, r.head? = some c → p c = false) :
    (l ++ r).takeWhile p = l ∧ (l ++ r).dropWhile p = r := by
  induction l with
  | nil =>
    simp only [List.nil_append]
    cases r with
    | nil => simp
    | cons c cs =>
      have hc := hr c rfl
      simp [List.takeWhile_cons, List.dropWhile_cons, hc]
  | cons a l ih =>
    have ha := hl a (by simp)
    have ih' := ih (fun x hx => hl x (by simp [hx]))
    simp [List.takeWhile_cons, List.dropWhile_cons, ha, ih'.1, ih'.2]

theorem drop_length_takeWhile {α : Type} (p : α → Bool) (l : List α) :
    l.drop (l.takeWhile p).length = l.dropWhile p := by
  induction l with
  | nil => rfl
  | cons a t ih =>
    by_cases h : p a
    · simp [List.takeWhile_cons, List.dropWhile_cons, h, ih]
    · simp [List.takeWhile_cons, List.dropWhile_cons, h]

theorem length_mapSet (m : List (String × String)) (k v : String) :
    (mapSet m k v).length
      = if m.any (fun e => e.1 = k) then m.length else m.length + 1 := by
  unfold mapSet; split <;> simp

theorem guardedSets_go_invariant (total : Nat) :
    ∀ (ops : List (String × String)) (m : List (String × String)) (c : Nat),
      m.length ≤ total → c = (if m.length = total then 1 else 0) →
      (ops.foldl (guardedStep total) (m, c)).1.length ≤ total
      ∧ (ops.foldl (guardedStep total) (m, c)).2
          = (if (ops.foldl (guardedStep total) (m, c)).1.length = total then 1 else 0) := by
  intro ops
  induction ops with
  | nil => intro m c hm hc; exact ⟨hm, hc⟩
  | cons op t ih =>
    intro m c hm hc
    simp only [List.foldl_cons]
    by_cases hguard : m.length < total
    · have hstep : guardedStep total (m, c) op
          = (mapSet m op.1 op.2,
             c + (if (mapSet m op.1 op.2).length = total then 1 else 0)) := by
        simp [guardedStep, proxySet, hguard]
      simp only [hstep]
      have hm' : (mapSet m op.1 op.2).length ≤ total := by
        rw [length_mapSet]; split
        · exact hm
        · omega
      have hc0 : c = 0 := by rw [hc]; simp [Nat.ne_of_lt hguard]
      exact ih _ _ hm' (by rw [hc0, Nat.zero_add])
    · have hstep : guardedStep total (m, c) op = (m, c) := by
        simp [guardedStep, hguard]
      simp only [hstep]; exact ih m c hm hc

theorem eq_of_mem_nodup_keys {β : Type} :
    ∀ (entries : List (String × β)), (entries.map Prod.fst).Nodup →
      ∀ {k : String} {u u' : β}, (k, u) ∈ entries → (k, u') ∈ entries → u = u' := by
  intro entries
  induction entries with
  | nil => intro _ k u u' h1; cases h1
  | cons e t ih =>
    intro hnd k u u' h1 h2
    simp only [List.map_cons, List.nodup_cons] at hnd
    rcases List.mem_cons.mp h1 with he1 | ht1
    · rcases List.mem_cons.mp h2 with he2 | ht2
      · rw [← he1] at he2; exact (Prod.mk.injEq _ _ _ _ ▸ he2.symm).2
      · exact absurd (List.mem_map.mpr ⟨(k, u'), ht2, by rw [← he1]⟩) hnd.1
    · rcases List.mem_cons.mp h2 with he2 | ht2
      · exact absurd (List.mem_map.mpr ⟨(k, u), ht1, by rw [← he2]⟩) hnd.1
      · exact ih hnd.2 ht1 ht2

theorem natDigitsGo_succ (fuel n : Nat) :
    natDigitsGo (fuel + 1) n = if n < 10 then [Char.ofNat (48 + n)]
      else natDigitsGo fuel (n / 10) ++ [Char.ofNat (48 + n % 10)] := rfl

theorem natDigitsGo_irrel : ∀ (n f f' : Nat), n ≤ f → n ≤ f' →
    natDigitsGo (f + 1) n = natDigitsGo (f' + 1) n := by
  intro n
  induction n using Nat.strong_induction_on with
  | _ n ih =>
    intro f f' hf hf'
    by_cases h10 : n < 10
    · rw [natDigitsGo_succ f n, natDigitsGo_succ f' n, if_pos h10, if_pos h10]
    · cases f with
      | zero => omega
      | succ g =>
        cases f' with
        | zero => omega
        | succ g' =>
          rw [natDigitsGo_succ (g + 1) n, natDigitsGo_succ (g' + 1) n,
            if_neg h10, if_neg h10]
          rw [ih (n / 10) (by omega) g g' (by omega) (by omega)]

theorem natDigits_def (n : Nat) :
    natDigits n = if n < 10 then [Char.ofNat (48 + n)]
      else natDigits (n / 10) ++ [Char.ofNat (48 + n % 10)] := by
  by_cases h : n < 10
  · rw [natDigits, natDigitsGo_succ n n, if_pos h, if_pos h]
  · rw [natDigits, natDigitsGo_succ n n, if_neg h, if_neg h]
    congr 1
    obtain ⟨k, rfl⟩ : ∃ k, n = k + 1 := ⟨n - 1, by omega⟩
    exact natDigitsGo_irrel ((k + 1) / 10) k ((k + 1) / 10) (by omega) (by omega)

theorem natDigits_all_digit : ∀ n : Nat, ∀ c ∈ natDigits n, c.isDigit = true := by
  intro n
  induction n using Nat.strong_induction_on with
  | _ n ih =>
    rw [natDigits_def]
    have hd : ∀ k, k < 10 → (Char.ofNat (48 + k)).isDigit = true := by decide
    by_cases h : n < 10
    · rw [if_pos h]
      intro c hc
      simp only [List.mem_singleton] at hc
      subst hc
      exact hd n h
    · rw [if_neg h]
      intro c hc
      rcases List.mem_append.mp hc with h1 | h2
      · exact ih (n / 10) (by omega) c h1
      · simp only [List.mem_singleton] at h2
        subst h2
        exact hd (n % 10) (by omega)

theorem natDigits_ne_nil (n : Nat) : natDigits n ≠ [] := by
  rw [natDigits_def]; split <;> simp

theorem digitsVal_append (l : List Char) (c : Char) :
    digitsVal (l ++ [c]) = 10 * digitsVal l + (c.toNat - 48) := by
  simp [digitsVal, List.foldl_append, Nat.mul_comm]

theorem digitsVal_natDigits : ∀ n : Nat, digitsVal (natDigits n) = n := by
  intro n
  induction n using Nat.strong_induction_on with
  | _ n ih =>
    rw [natDigits_def]
    by_cases h : n < 10
    · rw [if_pos h]
      exact (by decide : ∀ k, k < 10 → digitsVal [Char.ofNat (48 + k)] = k) n h
    · rw [if_neg h, digitsVal_append, ih (n / 10) (by omega)]
      rw [(by decide : ∀ k, k < 10 → (Char.ofNat (48 + k)).toNat - 48 = k) (n % 10) (by omega)]
      omega

theorem natOrdAux_succ (fuel : Nat) (x y : Char) (xs ys : List Char) :
    natOrdAux (fuel + 1) (x :: xs) (y :: ys)
      = if x.isDigit && y.isDigit then
          (match compare (digitsVal ((x :: xs).takeWhile Char.isDigit))
              (digitsVal ((y :: ys).takeWhile Char.isDigit)) with
           | .eq => natOrdAux fuel ((x :: xs).dropWhile Char.isDigit)
               ((y :: ys).dropWhile Char.isDigit)
           | o => o)
        else if x = y then natOrdAux fuel xs ys
        else compare x y := rfl

theorem natOrdAux_nil_nil (f : Nat) : natOrdAux f [] [] = .eq := by
  cases f <;> rfl

theorem natOrdAux_digitruns (f : Nat) (m n : Nat) (r1 r2 : List Char)
    (h1 : ∀ c, r1.head? = some c → c.isDigit = false)
    (h2 : ∀ c, r2.head? = some c → c.isDigit = false) :
    natOrdAux (f + 1) (natDigits m ++ r1) (natDigits n ++ r2)
      = (match compare m n with
         | .eq => natOrdAux f r1 r2
         | o => o) := by
  obtain ⟨x, xs, hx⟩ : ∃ x xs, natDigits m = x :: xs := by
    cases hm : natDigits m with
    | nil => exact absurd hm (natDigits_ne_nil m)
    | cons a l => exact ⟨a, l, rfl⟩
  obtain ⟨y, ys, hy⟩ : ∃ y ys, natDigits n = y :: ys := by
    cases hn : natDigits n with
    | nil => exact absurd hn (natDigits_ne_nil n)
    | cons a l => exact ⟨a, l, rfl⟩
  have htx := takeWhile_append_all Char.isDigit (natDigits m) r1 (natDigits_all_digit m) h1
  have hty := takeWhile_append_all Char.isDigit (natDigits n) r2 (natDigits_all_digit n) h2
  have hxd : x.isDigit = true := natDigits_all_digit m x (by rw [hx]; simp)
  have hyd : y.isDigit = true := natDigits_all_digit n y (by rw [hy]; simp)
  rw [hx, hy, List.cons_append, List.cons_append, natOrdAux_succ]
  rw [if_pos (by rw [hxd, hyd]; rfl)]
  rw [← List.cons_append, ← List.cons_append, ← hx, ← hy]
  rw [htx.1, hty.1, htx.2, hty.2, digitsVal_natDigits, digitsVal_natDigits]

theorem renderSegs_cons (n : Nat) (rest : List Nat) (h : rest ≠ []) :
    renderSegs (n :: rest) = natDigits n ++ '.' :: renderSegs rest := by
  cases rest with
  | nil => exact absurd rfl h
  | cons a t => rfl

theorem renderSegs_ne_nil : ∀ a : List Nat, a ≠ [] → renderSegs a ≠ [] := by
  intro a ha
  cases a with
  | nil => exact absurd rfl ha
  | cons n rest =>
    cases rest with
    | nil => exact natDigits_ne_nil n
    | cons a t => rw [renderSegs_cons n (a :: t) (by simp)]; simp

theorem natOrdAux_renderSegs : ∀ (a b : List Nat) (f : Nat),
    a ≠ [] → b ≠ [] → a.length = b.length → (renderSegs a).length ≤ f →
    natOrdAux f (renderSegs a) (renderSegs b) = lexCompareSegs a b := by
  intro a
  induction a with
  | nil => intro b f h; exact absurd rfl h
  | cons m a' ih =>
    intro b f _ hb hlen hf
    cases b with
    | nil => exact absurd rfl hb
    | cons n b' =>
      cases a' with
      | nil =>
        cases b' with
        | cons _ _ => simp at hlen
        | nil =>
          have h1 : 1 ≤ (renderSegs [m]).length :=
            List.length_pos.mpr (renderSegs_ne_nil [m] (by simp))
          obtain ⟨f', rfl⟩ : ∃ f', f = f' + 1 := ⟨f - 1, by omega⟩
          have e1 : renderSegs [m] = natDigits m ++ [] := by simp [renderSegs]
          have e2 : renderSegs [n] = natDigits n ++ [] := by simp [renderSegs]
          rw [e1, e2, natOrdAux_digitruns f' m n [] []
            (by intro c hc; cases hc) (by intro c hc; cases hc)]
          cases hcmp : compare m n <;>
            simp [lexCompareSegs, hcmp, natOrdAux_nil_nil]
      | cons m2 a'' =>
        cases b' with
        | nil => simp at hlen
        | cons n2 b'' =>
          have hlen1 : 1 ≤ (natDigits m).length :=
            List.length_pos.mpr (natDigits_ne_nil m)
          have hflen : (natDigits m).length + ((renderSegs (m2 :: a'')).length + 1) ≤ f := by
            have h0 := hf
            rw [renderSegs_cons m (m2 :: a'') (by simp)] at h0
            simpa using h0
          obtain ⟨f', rfl⟩ : ∃ f', f = f' + 1 := ⟨f - 1, by omega⟩
          rw [renderSegs_cons m (m2 :: a'') (by simp),
            renderSegs_cons n (n2 :: b'') (by simp)]
          rw [natOrdAux_digitruns f' m n ('.' :: renderSegs (m2 :: a''))
            ('.' :: renderSegs (n2 :: b''))
            (by intro c hc; simp at hc; rw [← hc]; rfl)
            (by intro c hc; simp at hc; rw [← hc]; rfl)]
          cases hcmp : compare m n with
          | eq =>
            simp only [lexCompareSegs, hcmp]
            obtain ⟨f'', rfl⟩ : ∃ f'', f' = f'' + 1 := ⟨f' - 1, by omega⟩
            have hstep : natOrdAux (f'' + 1) ('.' :: renderSegs (m2 :: a''))
                ('.' :: renderSegs (n2 :: b''))
                = natOrdAux f'' (renderSegs (m2 :: a'')) (renderSegs (n2 :: b'')) := by
              rw [natOrdAux_succ]
              simp
            rw [hstep]
            exact ih (n2 :: b'') f'' (by simp) (by simp) (by simpa using hlen) (by omega)
          | lt => simp only [lexCompareSegs, hcmp]
          | gt => simp only [lexCompareSegs, hcmp]

theorem digit_ne_dot {c : Char} (h : c.isDigit = true) : c ≠ '.' := by
  intro he
  rw [he] at h
  exact absurd h (by decide)

theorem splitOnChar_no_sep {sep : Char} : ∀ l : List Char,
    (∀ c ∈ l, c ≠ sep) → splitOnChar sep l = [l] := by
  intro l
  induction l with
  | nil => intro _; rfl
  | cons a t ih =>
    intro h
    have ha : ¬ a = sep := h a (by simp)
    have ih' := ih (fun c hc => h c (List.mem_cons_of_mem _ hc))
    simp [splitOnChar, ih', ha]

theorem splitOnChar_append_sep {sep : Char} : ∀ (l r : List Char),
    (∀ c ∈ l, c ≠ sep) →
    splitOnChar sep (l ++ sep :: r) = l :: splitOnChar sep r := by
  intro l
  induction l with
  | nil =>
    intro r _
    simp [splitOnChar]
  | cons a t ih =>
    intro r h
    have ha : ¬ a = sep := h a (by simp)
    have ih' := ih r (fun c hc => h c (List.mem_cons_of_mem _ hc))
    simp [splitOnChar, ih', ha]

theorem splitOnChar_renderSegs : ∀ a : List Nat, a ≠ [] →
    splitOnChar '.' (renderSegs a) = a.map natDigits := by
  intro a
  induction a with
  | nil => intro h; exact absurd rfl h
  | cons n rest ih =>
    intro _
    cases rest with
    | nil =>
      exact splitOnChar_no_sep (natDigits n)
        (fun c hc => digit_ne_dot (natDigits_all_digit n c hc))
    | cons n2 t =>
      rw [renderSegs_cons n (n2 :: t) (by simp)]
      rw [splitOnChar_append_sep (natDigits n) (renderSegs (n2 :: t))
        (fun c hc => digit_ne_dot (natDigits_all_digit n c hc))]
      rw [ih (by simp)]
      rfl

/-! ## Claims -/

/-- C1: the spec claims the run executor spawns exactly one run process per
ScriptPath in the validated set and none for a ScriptPath that failed
validation.  The code instead maps `generateK6RunCommand` over `testPaths`
and spawns every resulting command: with candidates `["a.js", "b.js"]` where
only `a.js` passes validation (inspect exit codes `0` and `1`), the validated
set is `["a.js"]` but run processes are spawned for both paths, including the
unvalidated `b.js`. -/
theorem runModel_spawns_unvalidated_path :
    validateTestPaths ["a.js", "b.js"] [] [0, 1]
        (fun i => if i = 0 then some 0 else some 1) = .ok ["a.js"]
    ∧ (runModel ["a.js", "b.js"] [0, 1]
        (fun i => if i = 0 then some 0 else some 1) (fun _ => 0)
        false false false).spawned = ["a.js", "b.js"] :=
  ⟨rfl, rfl⟩

/-- C2 (counterexample): the claim says `validateTestPaths` preserves the
original relative order of the input list regardless of subprocess completion
order.  The code pushes each path when its `exit` callback fires, so the
result is in completion order: with input `["a.js", "b.js"]`, both
subprocesses exiting `0`, and `b.js`'s subprocess exiting first, the result
is `["b.js", "a.js"]`, not the input order `["a.js", "b.js"]`. -/
theorem validateTestPaths_completion_order_cex :
    validateTestPaths ["a.js", "b.js"] [] [1, 0] (fun _ => some 0)
      = .ok ["b.js", "a.js"]
    ∧ ("b.js" :: "a.js" :: []) ≠ ("a.js" :: "b.js" :: []) :=
  ⟨rfl, by decide⟩

/-- C2 (amended): for every input list and assignment of exit codes,
`validateTestPaths` returns exactly those paths whose inspect subprocess
exited with code `0` (non-zero or abnormal termination excludes silently),
ordered by subprocess completion: the result is the completion-order
filtering, it is a permutation of the input-order filtering, and it equals
the input-order filtering when completions occur in spawn order. -/
theorem validateTestPaths_exit_zero_filter
    (testPaths flags : List String) (completion : List Nat)
    (exitCode : Nat → Option Int)
    (hperm : completion.Perm (List.range testPaths.length))
    (hne : testPaths ≠ []) :
    validateTestPaths testPaths flags completion exitCode
      = .ok (completion.filterMap (validPick testPaths exitCode))
    ∧ (completion.filterMap (validPick testPaths exitCode)).Perm
        ((List.range testPaths.length).filterMap (validPick testPaths exitCode))
    ∧ (completion = List.range testPaths.length →
        completion.filterMap (validPick testPaths exitCode)
          = (List.range testPaths.length).filterMap (validPick testPaths exitCode)) := by
  refine ⟨by simp [validateTestPaths, hne], hperm.filterMap _, fun h => by rw [h]⟩

/-- C2 (witness): the amended theorem applied to two candidates that both
validate but whose subprocesses complete in reverse order. -/
theorem validateTestPaths_exit_zero_filter_witness :
    validateTestPaths ["a.js", "b.js"] [] [1, 0] (fun _ => some 0)
      = .ok ([1, 0].filterMap (validPick ["a.js", "b.js"] (fun _ => some 0)))
    ∧ ([1, 0].filterMap (validPick ["a.js", "b.js"] (fun _ => some 0))).Perm
        ((List.range 2).filterMap (validPick ["a.js", "b.js"] (fun _ => some 0)))
    ∧ ([1, 0] = List.range 2 →
        [1, 0].filterMap (validPick ["a.js", "b.js"] (fun _ => some 0))
          = (List.range 2).filterMap (validPick ["a.js", "b.js"] (fun _ => some 0))) :=
  validateTestPaths_exit_zero_filter ["a.js", "b.js"] [] [1, 0] (fun _ => some 0)
    (by decide) (by decide)

/-- C3: the spec claims the final exit code is `0` when every validated
script's run process exited `0`.  Because run commands are generated from
`testPaths` rather than the validated set, an unvalidated script that is
spawned anyway and fails forces exit code `1` even though every validated
script passed: candidates `["a.js", "b.js"]`, only `a.js` validated, run exit
codes `a.js = 0`, `b.js = 1`, fail-fast off. -/
theorem runModel_exit_one_despite_validated_passing :
    validateTestPaths ["a.js", "b.js"] [] [0, 1]
        (fun i => if i = 0 then some 0 else some 1) = .ok ["a.js"]
    ∧ ["a.js"].all (fun p => (if p = "b.js" then (1 : Int) else 0) = 0) = true
    ∧ (runModel ["a.js", "b.js"] [0, 1]
        (fun i => if i = 0 then some 0 else some 1)
        (fun p => if p = "b.js" then (1 : Int) else 0)
        false false false).exitCode = 1 :=
  ⟨rfl, by decide, rfl⟩

/-- C4: the claim says that with debug off every line matching a
transient-progress pattern is dropped, and that across any sequence of calls
a chunk consisting of one progress-gauge line forwards zero bytes.  The
three source regexes carry the `g` flag, so `test` resumes from the stored
`lastIndex`: the first call on the gauge line `[ 26% ] 10 VUs` forwards
nothing and leaves `lastIndex = 14`; the second call on the very same chunk
finds no match beyond position 14, the line is kept, and all 14 bytes are
forwarded.  A single chunk containing the gauge line twice likewise forwards
the second occurrence.  With debug on the chunk is forwarded verbatim. -/
theorem parseK6Output_progress_regex_state_leaks :
    (parseK6Output "[ 26% ] 10 VUs".data (some []) 1 false
        freshRegexState).written = []
    ∧ (parseK6Output "[ 26% ] 10 VUs".data (some []) 1 false
        (parseK6Output "[ 26% ] 10 VUs".data (some []) 1 false
          freshRegexState).regex).written = "[ 26% ] 10 VUs".data
    ∧ (parseK6Output ("[ 26% ] 10 VUs".data ++ '\n' :: "[ 26% ] 10 VUs".data)
        (some []) 1 false freshRegexState).written = "[ 26% ] 10 VUs".data
    ∧ (parseK6Output "[ 26% ] 10 VUs".data (some []) 1 true
        freshRegexState).written = "[ 26% ] 10 VUs".data :=
  ⟨rfl, rfl, rfl, rfl⟩

/-- C5 (counterexample): the claim says a chunk containing the `.io` marker
whose normalised, truncated character set is a *subset* of the banner
character set is suppressed entirely.  `checkIfK6ASCIIArt` additionally
requires the set to have exactly the banner set's size, so the chunk
`"  .io"` — marker present, characters a strict subset of the banner set —
is not suppressed: all its bytes are forwarded. -/
theorem parseK6Output_subset_banner_not_suppressed :
    containsSub "  .io".data ".io".data = true
    ∧ (truncatedBanner "  .io".data).dedup.all
        (fun c => K6_ASCII_ART_CHARS.contains c) = true
    ∧ (parseK6Output "  .io".data (some []) 1 false freshRegexState).written
        = "  .io".data :=
  ⟨rfl, rfl, rfl⟩

/-- C7 (counterexample): the claim says that with cloud mode disabled the
generated command is exactly the run verb followed by the flags and the
path.  The builder always inserts the fixed argument `--address=` between
the verb and the flags: with flags `--vus=10` and path `t.js` the command is
`k6 run --address= --vus=10 t.js`, not `k6 run --vus=10 t.js`. -/
theorem generateK6RunCommand_local_has_address_arg :
    generateK6RunCommand "0.57.0" "t.js" "--vus=10" false false
      = .ok "k6 run --address= --vus=10 t.js"
    ∧ "k6 run --address= --vus=10 t.js" ≠ "k6 run --vus=10 t.js" :=
  ⟨rfl, by decide⟩

/-- C7 (amended): with cloud mode disabled the generated command is exactly
the local run verb, the fixed `--address=` argument, the flags and the path,
in that order, with no cloud argument added; the builder is deterministic and
its output ignores the installed version and the run-locally flag. -/
theorem generateK6RunCommand_local_form
    (k6Version k6Version' path flags : String) (rl rl' : Bool) :
    generateK6RunCommand k6Version path flags false rl
      = .ok ("k6 run" ++ " " ++ joinSpace ("--address=" :: splitFlags flags ++ [path]))
    ∧ generateK6RunCommand k6Version path flags false rl
      = generateK6RunCommand k6Version' path flags false rl' := by
  constructor
  · simp [generateK6RunCommand, k6RunArgs]
  · simp [generateK6RunCommand]

/-- C5 (amended): for every chunk processed with debug off while the result
map is present and below capacity, if the chunk contains the `.io` marker
and, after normalising `%0A` artifacts and truncating at the marker, its set
of distinct characters is *exactly* the fixed twelve-character banner set
(mutual inclusion), then the chunk is suppressed entirely. -/
theorem parseK6Output_suppresses_exact_banner
    (data : List Char) (m : List (String × String)) (total : Nat)
    (st : ProgressRegexState)
    (hlt : m.length < total)
    (hio : containsSub data ".io".data = true)
    (hsub : (truncatedBanner data).all (fun c => K6_ASCII_ART_CHARS.contains c) = true)
    (hsup : K6_ASCII_ART_CHARS.all (fun c => (truncatedBanner data).contains c) = true) :
    (parseK6Output data (some m) total false st).written = [] := by
  have hsub' : ∀ c ∈ truncatedBanner data, c ∈ K6_ASCII_ART_CHARS := by
    intro c hc
    have := List.all_eq_true.mp hsub c hc
    simpa using this
  have hsup' : ∀ c ∈ K6_ASCII_ART_CHARS, c ∈ truncatedBanner data := by
    intro c hc
    have := List.all_eq_true.mp hsup c hc
    simpa using this
  have hfin : (truncatedBanner data).dedup.toFinset = K6_ASCII_ART_CHARS.toFinset := by
    ext c
    simp only [List.mem_toFinset, List.mem_dedup]
    exact ⟨hsub' c, hsup' c⟩
  have hlen : (truncatedBanner data).dedup.length = K6_ASCII_ART_CHARS.length := by
    have h1 := List.toFinset_card_of_nodup (List.nodup_dedup (truncatedBanner data))
    have h2 := List.toFinset_card_of_nodup (show K6_ASCII_ART_CHARS.Nodup by decide)
    rw [← h1, ← h2, hfin]
  have hall : (truncatedBanner data).dedup.all
      (fun c => K6_ASCII_ART_CHARS.contains c) = true := by
    rw [List.all_eq_true]
    intro c hc
    have := hsub' c (List.mem_dedup.mp hc)
    simpa using this
  have hart : checkIfK6ASCIIArt data = true := by
    unfold checkIfK6ASCIIArt
    rw [hio]
    simp [hlen, hall]
    exact hsub'
  simp [parseK6Output, hlt, hart]

/-- C5 (witness): the amended theorem applied to a chunk drawn from exactly
the twelve banner characters and ending in the `.io` marker, with an empty
map and one expected script. -/
theorem parseK6Output_suppresses_exact_banner_witness :
    (parseK6Output "| /‾()_\\\n.io".data (some []) 1 false
        freshRegexState).written = [] :=
  parseK6Output_suppresses_exact_banner "| /‾()_\\\n.io".data [] 1
    freshRegexState (by decide) (by rfl) (by rfl) (by rfl)

/-- C6: with cloud mode enabled, the command builder follows the decision
table of the spec.  Installed version below the threshold: run-locally true
yields the local run verb with `--out=cloud` appended, run-locally false
yields the old cloud verb with no extra flag.  Version at or above the
threshold: the new cloud run verb, with `--local-execution` appended exactly
when run-locally is true.  In every case the script path is the final
argument of the command. -/
theorem generateK6RunCommand_cloud_cases (k6Version path flags : String) :
    (isVersionAtLeast k6Version k6CloudRunCommandVersion = .ok false →
      generateK6RunCommand k6Version path flags true true
        = .ok ("k6 run" ++ " " ++ joinSpace (k6RunArgs flags ["--out=cloud"] path))
      ∧ generateK6RunCommand k6Version path flags true false
        = .ok ("k6 cloud" ++ " " ++ joinSpace (k6RunArgs flags [] path)))
    ∧ (isVersionAtLeast k6Version k6CloudRunCommandVersion = .ok true →
      ∀ rl : Bool, generateK6RunCommand k6Version path flags true rl
        = .ok ("k6 cloud run" ++ " " ++
            joinSpace (k6RunArgs flags (if rl then ["--local-execution"] else []) path)))
    ∧ (∀ (b rl : Bool), isVersionAtLeast k6Version k6CloudRunCommandVersion = .ok b →
      ∃ pre, generateK6RunCommand k6Version path flags true rl
        = .ok (pre ++ " " ++ path)) := by
  have hargs : ∀ extra, joinSpace (k6RunArgs flags extra path)
      = joinSpace ("--address=" :: splitFlags flags ++ extra) ++ " " ++ path := by
    intro extra
    have he : k6RunArgs flags extra path
        = ("--address=" :: splitFlags flags ++ extra) ++ [path] := by
      simp [k6RunArgs]
    rw [he, joinSpace_append_singleton _ _ (by simp)]
  refine ⟨fun h => ⟨by simp [generateK6RunCommand, h], by simp [generateK6RunCommand, h]⟩,
    fun h rl => by simp [generateK6RunCommand, h], ?_⟩
  intro b rl h
  cases b with
  | false =>
    cases rl with
    | true =>
      refine ⟨"k6 run" ++ " " ++ joinSpace ("--address=" :: splitFlags flags ++ ["--out=cloud"]), ?_⟩
      simp [generateK6RunCommand, h, hargs, String.append_assoc]
    | false =>
      refine ⟨"k6 cloud" ++ " " ++ joinSpace ("--address=" :: splitFlags flags ++ []), ?_⟩
      simp [generateK6RunCommand, h, hargs, String.append_assoc]
  | true =>
    refine ⟨"k6 cloud run" ++ " " ++ joinSpace ("--address=" :: splitFlags flags
      ++ (if rl then ["--local-execution"] else [])), ?_⟩
    simp [generateK6RunCommand, h, hargs, String.append_assoc]

/-- C6 (witness): the builder evaluated on both sides of the version
threshold, matching the decision table. -/
theorem generateK6RunCommand_cloud_cases_witness :
    generateK6RunCommand "0.53.0" "t.js" "" true true
      = .ok "k6 run --address= --out=cloud t.js"
    ∧ generateK6RunCommand "0.53.0" "t.js" "" true false
      = .ok "k6 cloud --address= t.js"
    ∧ generateK6RunCommand "0.55.0" "t.js" "" true true
      = .ok "k6 cloud run --address= --local-execution t.js"
    ∧ generateK6RunCommand "0.55.0" "t.js" "" true false
      = .ok "k6 cloud run --address= t.js" := by
  have h1 := (generateK6RunCommand_cloud_cases "0.53.0" "t.js" "").1 (by rfl)
  have h2 := (generateK6RunCommand_cloud_cases "0.55.0" "t.js" "").2.1 (by rfl)
  exact ⟨h1.1.trans (by rfl), h1.2.trans (by rfl),
    (h2 true).trans (by rfl), (h2 false).trans (by rfl)⟩

/-- C8: over any guarded sequence of map assignments (each attempted only
while the map is below the expected total, as `parseK6Output` does), the
aggregation-complete action fires exactly once when the map reaches the
expected total and never otherwise: the map never exceeds the total, and the
number of fires is one exactly when the final size equals the total. -/
theorem guardedSets_fires_once_at_threshold (total : Nat)
    (ops : List (String × String)) (h : 1 ≤ total) :
    (guardedSets total ops).1.length ≤ total
    ∧ (guardedSets total ops).2
        = (if (guardedSets total ops).1.length = total then 1 else 0) := by
  have h0 : (0 : Nat)
      = (if ([] : List (String × String)).length = total then 1 else 0) := by
    rw [if_neg (by simpa using Nat.ne_of_lt (Nat.lt_of_lt_of_le Nat.zero_lt_one h))]
  exact guardedSets_go_invariant total ops [] 0 (by simp) h0

/-- C8 (witness): one expected script, one insertion: the final size equals
the total and the action fired exactly once. -/
theorem guardedSets_fires_once_at_threshold_witness :
    (guardedSets 1 [("a.js", "url")]).1.length ≤ 1
    ∧ (guardedSets 1 [("a.js", "url")]).2
        = (if (guardedSets 1 [("a.js", "url")]).1.length = 1 then 1 else 0) :=
  guardedSets_fires_once_at_threshold 1 [("a.js", "url")] (by decide)

/-- C10: `extractTestRunId` returns the digits `d` exactly when the URL ends
with `/runs/` immediately followed by `d`; a trailing non-digit character
after the numeric id makes it return `none`, and an entry whose URL yields
`none` is omitted from the `testRunIds` output mapping. -/
theorem extractTestRunId_runs_suffix :
    (∀ (s d : List Char),
      extractTestRunId (String.mk s) = some (String.mk d) ↔
        (d ≠ [] ∧ (∀ c ∈ d, c.isDigit = true) ∧
          ∃ pre, s = pre ++ "/runs/".data ++ d))
    ∧ (∀ (pre d : List Char) (c : Char), c.isDigit = false →
        extractTestRunId (String.mk (pre ++ "/runs/".data ++ d ++ [c])) = none)
    ∧ (∀ (entries : List (String × String)) (k u : String),
        (entries.map Prod.fst).Nodup → (k, u) ∈ entries →
        extractTestRunId u = none →
        k ∉ (buildTestRunIds entries).map Prod.fst) := by
  have hsix : "/runs/".data = ['/', 'r', 'u', 'n', 's', '/'] := rfl
  refine ⟨?_, ?_, ?_⟩
  · intro s d
    constructor
    · intro h
      unfold extractTestRunId at h
      simp only at h
      set rev := s.reverse with hrev0
      set tw := rev.takeWhile Char.isDigit with htw0
      set dw := rev.dropWhile Char.isDigit with hdw0
      split at h
      · cases h
      · next h1 =>
        split at h
        · next h2 =>
          have hds : tw.reverse = d := congrArg String.data (Option.some.inj h)
          refine ⟨by simpa [← hds] using h1, ?_, ?_⟩
          · intro c hc
            rw [← hds] at hc
            exact List.mem_takeWhile_imp (List.mem_reverse.mp hc)
          · have hsplit : rev = tw ++ dw :=
              (List.takeWhile_append_dropWhile Char.isDigit rev).symm
            have hdrop6 : rev.drop tw.length = dw := drop_length_takeWhile _ _
            rw [hdrop6] at h2
            have hrest : dw = ['/', 's', 'n', 'u', 'r', '/'] ++ dw.drop 6 := by
              conv_lhs => rw [← List.take_append_drop 6 dw]
              rw [h2]
            refine ⟨(dw.drop 6).reverse, ?_⟩
            have hrevs : rev = tw ++ (['/', 's', 'n', 'u', 'r', '/'] ++ dw.drop 6) := by
              rw [hsplit]
              congr 1
            have hfin : s = (tw ++ (['/', 's', 'n', 'u', 'r', '/'] ++ dw.drop 6)).reverse := by
              rw [← hrevs, hrev0, List.reverse_reverse]
            rw [hfin, ← hds]
            rw [hsix]
            simp [List.reverse_append, List.append_assoc]
        · cases h
    · rintro ⟨hd, hdig, pre, rfl⟩
      have hsix' : "/runs/".data.reverse = ['/', 's', 'n', 'u', 'r', '/'] := rfl
      have hrev : (pre ++ "/runs/".data ++ d).reverse
          = d.reverse ++ ("/runs/".data.reverse ++ pre.reverse) := by
        simp [List.reverse_append]
      have htw := takeWhile_append_all Char.isDigit d.reverse
        ("/runs/".data.reverse ++ pre.reverse)
        (fun x hx => hdig x (List.mem_reverse.mp hx))
        (by rw [hsix']; intro c hc; simp at hc; rw [← hc]; rfl)
      show (if ((pre ++ "/runs/".data ++ d).reverse.takeWhile Char.isDigit) = [] then none
        else if (((pre ++ "/runs/".data ++ d).reverse.drop
            ((pre ++ "/runs/".data ++ d).reverse.takeWhile Char.isDigit).length).take 6)
            = ['/', 's', 'n', 'u', 'r', '/'] then
          some (String.mk ((pre ++ "/runs/".data ++ d).reverse.takeWhile Char.isDigit).reverse)
        else none) = some (String.mk d)
      rw [hrev, htw.1]
      rw [if_neg (by simpa using hd)]
      rw [List.drop_left]
      rw [if_pos (by rw [hsix']; exact List.take_left' rfl)]
      simp
  · intro pre d c hc
    unfold extractTestRunId
    have hrev : (pre ++ "/runs/".data ++ d ++ [c]).reverse
        = c :: (pre ++ "/runs/".data ++ d).reverse := by
      simp
    simp [hrev, List.takeWhile_cons, hc]
  · intro entries k u hnd hmem hnone hk
    rw [List.mem_map] at hk
    obtain ⟨p, hp, hpk⟩ := hk
    simp only [buildTestRunIds, List.mem_filterMap] at hp
    obtain ⟨e, he, heq⟩ := hp
    obtain ⟨id, hid, hfe⟩ := Option.map_eq_some'.mp heq
    have hek : e.1 = k := by rw [← hpk, ← hfe]
    have hmem2 : (k, e.2) ∈ entries := by rw [← hek]; exact he
    have hu : u = e.2 := eq_of_mem_nodup_keys entries hnd hmem hmem2
    rw [← hu, hnone] at hid
    cases hid

/-- C10 (witness): a URL with a trailing slash after the numeric id yields
no test-run id, and its script is omitted from the output mapping. -/
theorem extractTestRunId_runs_suffix_witness :
    extractTestRunId
        (String.mk ("https://app".data ++ "/runs/".data ++ "123".data ++ ['/'])) = none
    ∧ "s.js" ∉ (buildTestRunIds [("s.js", "u/runs/123/")]).map Prod.fst := by
  constructor
  · exact extractTestRunId_runs_suffix.2.1 "https://app".data "123".data '/' (by decide)
  · exact extractTestRunId_runs_suffix.2.2 [("s.js", "u/runs/123/")] "s.js" "u/runs/123/"
      (by decide) (by decide) (by rfl)

/-- C9: `isVersionAtLeast` throws when the two version strings have
different numbers of dot-separated segments or when either is empty; on
numeric version strings with equal segment counts it returns `true` exactly
when the first version is greater than or equal to the second under numeric,
dot-separated comparison. -/
theorem isVersionAtLeast_numeric_spec :
    (∀ a b : List Nat, a ≠ [] → b ≠ [] → a.length = b.length →
      isVersionAtLeast (String.mk (renderSegs a)) (String.mk (renderSegs b))
        = .ok (specNumericVersionGE a b))
    ∧ (∀ a b : List Nat, a ≠ [] → b ≠ [] → a.length ≠ b.length →
      isVersionAtLeast (String.mk (renderSegs a)) (String.mk (renderSegs b))
        = .error "Both version strings must have the same number of segments")
    ∧ (∀ v : String,
      isVersionAtLeast "" v = .error "Both version strings must be provided"
      ∧ isVersionAtLeast v "" = .error "Both version strings must be provided") := by
  refine ⟨?_, ?_, ?_⟩
  · intro a b ha hb hlen
    unfold isVersionAtLeast
    rw [if_neg (not_or.mpr ⟨renderSegs_ne_nil a ha, renderSegs_ne_nil b hb⟩)]
    rw [if_neg (by
      rw [splitOnChar_renderSegs a ha, splitOnChar_renderSegs b hb]
      simp [hlen])]
    have hcmp := natOrdAux_renderSegs a b (renderSegs a).length ha hb hlen (Nat.le_refl _)
    rw [show natOrd (renderSegs a) (renderSegs b)
        = natOrdAux (renderSegs a).length (renderSegs a) (renderSegs b) from rfl]
    rw [hcmp]
    rfl
  · intro a b ha hb hlen
    unfold isVersionAtLeast
    rw [if_neg (not_or.mpr ⟨renderSegs_ne_nil a ha, renderSegs_ne_nil b hb⟩)]
    rw [if_pos (by
      rw [splitOnChar_renderSegs a ha, splitOnChar_renderSegs b hb]
      simp [hlen])]
  · intro v
    constructor
    · unfold isVersionAtLeast
      rw [if_pos (Or.inl rfl)]
    · unfold isVersionAtLeast
      rw [if_pos (Or.inr rfl)]

/-- C9 (witness): the comparison evaluated on the rendered versions
`0.54.0` and `0.53.0`, where the numeric comparison returns `true`. -/
theorem isVersionAtLeast_numeric_spec_witness :
    isVersionAtLeast (String.mk (renderSegs [0, 54, 0])) (String.mk (renderSegs [0, 53, 0]))
      = .ok (specNumericVersionGE [0, 54, 0] [0, 53, 0])
    ∧ isVersionAtLeast "0.54.0" "0.53.0" = .ok true := by
  have h := isVersionAtLeast_numeric_spec.1 [0, 54, 0] [0, 53, 0]
    (by simp) (by simp) rfl
  refine ⟨h, ?_⟩
  have e1 : String.mk (renderSegs [0, 54, 0]) = "0.54.0" := by decide
  have e2 : String.mk (renderSegs [0, 53, 0]) = "0.53.0" := by decide
  have e3 : specNumericVersionGE [0, 54, 0] [0, 53, 0] = true := by decide
  rw [← e1, ← e2, h, e3]

end RunK6
